import Mathlib

/-!
# VotingBlock: a shallow embedding of the voting-session contract

The contract (`VotingBlock.sol`) keeps a registry of voting sessions
(`mapping(uint => VotingSession)` plus a counter `votingSessionCount`) and
exposes `createVotingSession`, `vote`, `calculateResults` and `getWinners`.
We embed it as follows:

* Solidity `uint` becomes `Nat` (the contract only increments small counters
  and timestamps; no operation here can overflow in a way the claims touch,
  and Solidity ^0.8 reverts on overflow rather than wrapping).
* `address` becomes `Nat`.
* `mapping(address => bool) hasVoted` becomes the list of addresses that have
  been marked `true`; only `vote` ever writes to it, guarded by a membership
  check, so the list is duplicate-free.
* `mapping(uint => VotingSession)` becomes a `List VotingSession` read with
  `List.getD` against the default (all-fields-zero) session `emptySession`,
  exactly mirroring Solidity's default-initialized mapping slots; writes go
  through `storeAt`, which pads with default sessions when writing past the
  end so that an arbitrary-key write is representable.
* `require(cond, msg)` becomes an `if`/`else` returning `Except.error e`
  with a dedicated error constructor per message; a reverted call returns no
  state, mirroring Solidity's transaction rollback.
* `keccak256(bytes(a)) != keccak256(bytes(b))` is modelled as string
  inequality (keccak-256 is collision-free for the purposes of the spec).
-/

structure VotingSession where
  title : String
  candidates : List String
  isActive : Bool
  startTimestamp : Nat
  endTimestamp : Nat
  resultsCalculated : Bool
  finalTally : List Nat
  hasVoted : List Nat
  deriving Repr, DecidableEq

/-- The default-initialized session a Solidity mapping returns for a key
that was never written: empty strings/arrays, `false` flags, zero times. -/
def emptySession : VotingSession :=
  { title := ""
    candidates := []
    isActive := false
    startTimestamp := 0
    endTimestamp := 0
    resultsCalculated := false
    finalTally := []
    hasVoted := [] }

structure VotingBlock where
  votingSessions : List VotingSession
  votingSessionCount : Nat
  deriving Repr, DecidableEq

/-- Contract state right after deployment: no sessions, counter at zero. -/
def initialState : VotingBlock :=
  { votingSessions := [], votingSessionCount := 0 }

/-- One error constructor per `require` message in the contract. -/
inductive VBError where
  | insufficientCandidates   -- "Need at least two candidates."
  | invalidDuration          -- "Duration must be greater than zero."
  | duplicateCandidate       -- "Duplicate candidate found."
  | sessionNotActive         -- "Voting session is not active."
  | sessionEnded             -- "Voting session has ended."
  | alreadyVoted             -- "You have already voted."
  | invalidCandidateIndex    -- "Invalid candidate index."
  | invalidSessionId         -- "Invalid session ID."
  | sessionAlreadyFinalized  -- "Session already finalized."
  | votingStillActive        -- "Voting period is still active."
  | resultsAlreadyCalculated -- "Results already calculated."
  | resultsNotCalculated     -- "Results not calculated yet."
  deriving Repr, DecidableEq

/-- Read of `votingSessions[sid]`: a never-written key yields the
default-initialized session. -/
def sessionAt (st : VotingBlock) (sid : Nat) : VotingSession :=
  st.votingSessions.getD sid emptySession

/-- Write of `votingSessions[i] := s` on the list representation of the
mapping: in-range keys are overwritten, an out-of-range key is reached by
padding with default sessions first. -/
def storeAt (l : List VotingSession) (i : Nat) (s : VotingSession) :
    List VotingSession :=
  if i < l.length then l.set i s
  else l ++ List.replicate (i - l.length) emptySession ++ [s]

/-- The nested `i`/`j` loops of `createVotingSession` (lines 47-54): does
any later candidate equal an earlier one? -/
def hasDuplicate : List String → Bool
  | [] => false
  | c :: rest => rest.contains c || hasDuplicate rest

/-- Embeds `createVotingSession(_title, _candidates, _durationInSeconds)` with
`block.timestamp = now`.  Returns the new `sessionId` and post-state, or the
revert reason. -/
def createVotingSession (st : VotingBlock) (title : String)
    (candidates : List String) (durationInSeconds now : Nat) :
    Except VBError (Nat × VotingBlock) :=
  if candidates.length > 1 then
    if durationInSeconds > 0 then
      if hasDuplicate candidates then .error .duplicateCandidate
      else
        let sessionId := st.votingSessionCount
        let session : VotingSession :=
          { title := title
            candidates := candidates
            isActive := true
            startTimestamp := now
            endTimestamp := now + durationInSeconds
            resultsCalculated := false
            finalTally := List.replicate candidates.length 0
            hasVoted := [] }
        .ok (sessionId,
          { votingSessions := storeAt st.votingSessions sessionId session
            votingSessionCount := st.votingSessionCount + 1 })
    else .error .invalidDuration
  else .error .insufficientCandidates

/-- Embeds `vote(_sessionId, _candidateIndex)` with `msg.sender = sender` and
`block.timestamp = now`. -/
def vote (st : VotingBlock) (sessionId candidateIndex sender now : Nat) :
    Except VBError VotingBlock :=
  let session := sessionAt st sessionId
  if session.isActive then
    if now ≤ session.endTimestamp then
      if sender ∈ session.hasVoted then .error .alreadyVoted
      else
        if candidateIndex < session.candidates.length then
          let session' :=
            { session with
              hasVoted := sender :: session.hasVoted
              finalTally := session.finalTally.set candidateIndex
                (session.finalTally.getD candidateIndex 0 + 1) }
          .ok { st with
                votingSessions := storeAt st.votingSessions sessionId session' }
        else .error .invalidCandidateIndex
    else .error .sessionEnded
  else .error .sessionNotActive

/-- Embeds `calculateResults(_sessionId)` with `block.timestamp = now`. -/
def calculateResults (st : VotingBlock) (sessionId now : Nat) :
    Except VBError VotingBlock :=
  if sessionId < st.votingSessionCount then
    let session := sessionAt st sessionId
    if session.isActive then
      if now > session.endTimestamp then
        if session.resultsCalculated then .error .resultsAlreadyCalculated
        else
          let session' :=
            { session with resultsCalculated := true, isActive := false }
          .ok { st with
                votingSessions := storeAt st.votingSessions sessionId session' }
      else .error .votingStillActive
    else .error .sessionAlreadyFinalized
  else .error .invalidSessionId

/-- Body of the first `getWinners` loop (lines 112-119): fold state is the
pair `(highestVoteCount, winnersCount)`. -/
def scanStep (acc : Nat × Nat) (v : Nat) : Nat × Nat :=
  if v > acc.1 then (v, 1)
  else if v = acc.1 then (acc.1, acc.2 + 1)
  else acc

/-- Embeds `getWinners(_sessionId)`: after the `resultsCalculated` guard, the first
loop computes `(highestVoteCount, winnersCount)` and the second loop collects,
in increasing index order, `candidates[i]` for every `i` with
`finalTally[i] == highestVoteCount` (the collected list has exactly
`winnersCount` entries, see `winners_length_eq_winnersCount`). -/
def getWinners (st : VotingBlock) (sessionId : Nat) :
    Except VBError (List String) :=
  let session := sessionAt st sessionId
  if session.resultsCalculated then
    let highestVoteCount := (session.finalTally.foldl scanStep (0, 0)).1
    .ok (((List.range session.finalTally.length).filter
            (fun i => session.finalTally.getD i 0 = highestVoteCount)).map
          (fun i => session.candidates.getD i ""))
  else .error .resultsNotCalculated

/-- Embeds `getTally(_sessionId)`. -/
def getTally (st : VotingBlock) (sessionId : Nat) : List Nat :=
  (sessionAt st sessionId).finalTally

/-- Embeds `hasVoted(_sessionId, _voter)`. -/
def hasVotedIn (st : VotingBlock) (sessionId voter : Nat) : Bool :=
  voter ∈ (sessionAt st sessionId).hasVoted

/-- One successful externally-invoked state transition of the contract
(`now` is the `block.timestamp` of the transaction). -/
inductive Step : VotingBlock → VotingBlock → Prop where
  | create (st st' : VotingBlock) (t : String) (cs : List String)
      (d now sid : Nat)
      (h : createVotingSession st t cs d now = .ok (sid, st')) : Step st st'
  | castVote (st st' : VotingBlock) (sid ci sender now : Nat)
      (h : vote st sid ci sender now = .ok st') : Step st st'
  | finalize (st st' : VotingBlock) (sid now : Nat)
      (h : calculateResults st sid now = .ok st') : Step st st'

/-- Zero or more successful transitions. -/
inductive ReachableFrom : VotingBlock → VotingBlock → Prop where
  | refl (st : VotingBlock) : ReachableFrom st st
  | tail (st st' st'' : VotingBlock) (h : ReachableFrom st st')
      (hs : Step st' st'') : ReachableFrom st st''

/-- States the deployed contract can actually be in. -/
def Reachable (st : VotingBlock) : Prop :=
  ReachableFrom initialState st

/-- Returns `true` exactly when the call reverted. -/
def isError : Except VBError VotingBlock → Bool
  | .error _ => true
  | .ok _ => false

/-- One external transaction request against the contract. -/
inductive Call where
  | create (title : String) (candidates : List String) (durationInSeconds : Nat)
  | castVote (sessionId candidateIndex sender : Nat)
  | finalize (sessionId : Nat)

/-- The mutating entry point a `Call` dispatches to (the fresh `sessionId`
returned by `createVotingSession` is dropped, keeping only the post-state). -/
def callResult (st : VotingBlock) (c : Call) (now : Nat) :
    Except VBError VotingBlock :=
  match c with
  | .create t cs d => (createVotingSession st t cs d now).map Prod.snd
  | .castVote sid ci sender => vote st sid ci sender now
  | .finalize sid => calculateResults st sid now

/-- The storage outcome of one transaction: Solidity rolls a reverted call
back, so a call that errors leaves the contract state untouched. -/
def execCall (st : VotingBlock) (c : Call) (now : Nat) : VotingBlock :=
  match callResult st c now with
  | .ok st' => st'
  | .error _ => st

/-- The complete list of storage effects a successful call commits, stated
slot by slot: the touched session's new field values, every other session
unchanged, and the counter bumped only by `create`. -/
def FullEffects (st : VotingBlock) (c : Call) (now : Nat)
    (st' : VotingBlock) : Prop :=
  match c with
  | .create t cs d =>
      st'.votingSessionCount = st.votingSessionCount + 1 ∧
      sessionAt st' st.votingSessionCount =
        { title := t, candidates := cs, isActive := true,
          startTimestamp := now, endTimestamp := now + d,
          resultsCalculated := false,
          finalTally := List.replicate cs.length 0, hasVoted := [] } ∧
      ∀ j, j ≠ st.votingSessionCount → sessionAt st' j = sessionAt st j
  | .castVote sid ci sender =>
      st'.votingSessionCount = st.votingSessionCount ∧
      sessionAt st' sid =
        { sessionAt st sid with
          hasVoted := sender :: (sessionAt st sid).hasVoted
          finalTally := (sessionAt st sid).finalTally.set ci
            ((sessionAt st sid).finalTally.getD ci 0 + 1) } ∧
      ∀ j, j ≠ sid → sessionAt st' j = sessionAt st j
  | .finalize sid =>
      st'.votingSessionCount = st.votingSessionCount ∧
      sessionAt st' sid =
        { sessionAt st sid with resultsCalculated := true, isActive := false } ∧
      ∀ j, j ≠ sid → sessionAt st' j = sessionAt st j

/-- Computes `max(tally)` as the spec reads it (maximum vote count, 0 on an empty
tally). -/
def maxTally (tally : List Nat) : Nat := tally.foldr max 0

/-- Restates `getWinners` as the spec's §4 algorithm words it: "scan `tally` once to
find `maxVotes = max(tally)`; collect, in increasing candidate-index order,
every candidate whose count equals `maxVotes`".  Kept separate from
`getWinners` (which mirrors the contract's two loops) so the two can be
compared. -/
def specWinners (candidates : List String) (tally : List Nat) : List String :=
  ((List.range tally.length).filter
      (fun i => tally.getD i 0 = maxTally tally)).map
    (fun i => candidates.getD i "")

/-- Per-session invariant maintained by every reachable state: tally and
candidate list stay in step, the tally total counts the recorded voters,
no voter is recorded twice, a finalized session is inactive, and any session
that was actually created has at least two candidates. -/
def SessionInv (s : VotingSession) : Prop :=
  s.finalTally.length = s.candidates.length ∧
  s.finalTally.sum = s.hasVoted.length ∧
  s.hasVoted.Nodup ∧
  (s.resultsCalculated = true → s.isActive = false) ∧
  (s.isActive = true ∨ s.resultsCalculated = true → 2 ≤ s.candidates.length)

/-- Registry-wide invariant: the counter equals the number of stored
sessions and every slot satisfies `SessionInv`. -/
def StateInv (st : VotingBlock) : Prop :=
  st.votingSessionCount = st.votingSessions.length ∧
  ∀ sid, SessionInv (sessionAt st sid)

/-!  Concrete states used by the witnesses and counterexamples: the spec's
§8 scenario, a session "Best fruit" with candidates Banana/Watermelon and a
60-second window created at time 0, voter 1 voting for index 1. -/

/-- State after `createVotingSession("Best fruit", ["Banana","Watermelon"], 60)`
at time 0. -/
def exCreated : VotingBlock :=
  execCall initialState (.create "Best fruit" ["Banana", "Watermelon"] 60) 0

/-- State after voter 1 then votes for candidate 1 at time 5. -/
def exVoted : VotingBlock := execCall exCreated (.castVote 0 1 1) 5

/-- State after `calculateResults(0)` at time 61. -/
def exFinal : VotingBlock := execCall exVoted (.finalize 0) 61

/-! ## Lemmas about the mapping representation -/

theorem length_storeAt (l : List VotingSession) (i : Nat) (s : VotingSession) :
    (storeAt l i s).length = max l.length (i + 1) := by
  unfold storeAt
  split_ifs with h
  · rw [List.length_set]; omega
  · simp only [List.length_append, List.length_replicate, List.length_cons,
      List.length_nil]
    omega

theorem storeAt_getD_self (l : List VotingSession) (i : Nat)
    (s : VotingSession) : (storeAt l i s).getD i emptySession = s := by
  unfold storeAt
  split_ifs with h
  · rw [List.getD_eq_getElem?_getD, List.getElem?_set_self h, Option.getD_some]
  · push_neg at h
    rw [List.append_assoc, List.getD_append_right _ _ _ _ h,
      List.getD_append_right]
    · simp [List.length_replicate]
    · simp [List.length_replicate]

theorem storeAt_getD_ne (l : List VotingSession) (i j : Nat)
    (s : VotingSession) (h : j ≠ i) :
    (storeAt l i s).getD j emptySession = l.getD j emptySession := by
  unfold storeAt
  split_ifs with hlen
  · rw [List.getD_eq_getElem?_getD, List.getElem?_set_ne (Ne.symm h),
      ← List.getD_eq_getElem?_getD]
  · push_neg at hlen
    rw [List.append_assoc]
    rcases Nat.lt_or_ge j l.length with hj | hj
    · rw [List.getD_append _ _ _ _ hj]
    · rw [List.getD_append_right _ _ _ _ hj, List.getD_eq_default _ _ hj]
      rcases Nat.lt_or_ge (j - l.length) (i - l.length) with hk | hk
      · rw [List.getD_append]
        · rw [List.getD_eq_getElem _ _ (by simpa [List.length_replicate] using hk)]
          exact List.getElem_replicate _ _
        · simpa [List.length_replicate] using hk
      · rw [List.getD_append_right]
        · apply List.getD_eq_default
          simp only [List.length_cons, List.length_nil, List.length_replicate]
          omega
        · simpa [List.length_replicate] using hk

theorem sessionAt_default (st : VotingBlock) (sid : Nat)
    (h : st.votingSessions.length ≤ sid) : sessionAt st sid = emptySession :=
  List.getD_eq_default _ _ h

theorem sum_set_getD_succ (l : List Nat) (i : Nat) (h : i < l.length) :
    (l.set i (l.getD i 0 + 1)).sum = l.sum + 1 := by
  induction l generalizing i with
  | nil => simp at h
  | cons x xs ih =>
    cases i with
    | zero => simp [List.getD_cons_zero, List.sum_cons]; omega
    | succ n =>
      simp only [List.set_cons_succ, List.getD_cons_succ, List.sum_cons]
      rw [ih n (by simpa using h)]
      omega

/-! ## Inversion lemmas for the three mutating entry points -/

theorem createVotingSession_ok (st : VotingBlock) (t : String)
    (cs : List String) (d now sid : Nat) (st' : VotingBlock)
    (h : createVotingSession st t cs d now = .ok (sid, st')) :
    1 < cs.length ∧ 0 < d ∧ hasDuplicate cs = false ∧
    sid = st.votingSessionCount ∧
    st' = { votingSessions := storeAt st.votingSessions st.votingSessionCount
              { title := t, candidates := cs, isActive := true,
                startTimestamp := now, endTimestamp := now + d,
                resultsCalculated := false,
                finalTally := List.replicate cs.length 0, hasVoted := [] }
            votingSessionCount := st.votingSessionCount + 1 } := by
  simp only [createVotingSession] at h
  split_ifs at h with h1 h2 h3
  simp only [Except.ok.injEq, Prod.mk.injEq] at h
  exact ⟨h1, h2, by simpa using h3, h.1.symm, h.2.symm⟩

theorem vote_ok (st : VotingBlock) (sid ci sender now : Nat)
    (st' : VotingBlock) (h : vote st sid ci sender now = .ok st') :
    (sessionAt st sid).isActive = true ∧
    now ≤ (sessionAt st sid).endTimestamp ∧
    sender ∉ (sessionAt st sid).hasVoted ∧
    ci < (sessionAt st sid).candidates.length ∧
    st' = { st with
            votingSessions :=
              storeAt st.votingSessions sid
                { sessionAt st sid with
                  hasVoted := sender :: (sessionAt st sid).hasVoted
                  finalTally := (sessionAt st sid).finalTally.set ci
                    ((sessionAt st sid).finalTally.getD ci 0 + 1) } } := by
  simp only [vote] at h
  split_ifs at h with h1 h2 h3 h4
  simp only [Except.ok.injEq] at h
  exact ⟨h1, h2, h3, h4, h.symm⟩

theorem calculateResults_ok (st : VotingBlock) (sid now : Nat)
    (st' : VotingBlock) (h : calculateResults st sid now = .ok st') :
    sid < st.votingSessionCount ∧
    (sessionAt st sid).isActive = true ∧
    (sessionAt st sid).endTimestamp < now ∧
    (sessionAt st sid).resultsCalculated = false ∧
    st' = { st with
            votingSessions :=
              storeAt st.votingSessions sid
                { sessionAt st sid with
                  resultsCalculated := true, isActive := false } } := by
  simp only [calculateResults] at h
  split_ifs at h with h1 h2 h3 h4
  simp only [Except.ok.injEq] at h
  exact ⟨h1, h2, h3, by simpa using h4, h.symm⟩

/-! ## Error behaviour of the entry points -/

theorem createVotingSession_too_few (st : VotingBlock) (t : String)
    (cs : List String) (d now : Nat) (h : cs.length < 2) :
    createVotingSession st t cs d now = .error .insufficientCandidates := by
  unfold createVotingSession
  rw [if_neg (by omega)]

theorem createVotingSession_zero_duration (st : VotingBlock) (t : String)
    (cs : List String) (now : Nat) (h : 1 < cs.length) :
    createVotingSession st t cs 0 now = .error .invalidDuration := by
  unfold createVotingSession
  rw [if_pos h, if_neg (by omega)]

theorem createVotingSession_duplicate (st : VotingBlock) (t : String)
    (cs : List String) (d now : Nat) (h1 : 1 < cs.length) (h2 : 0 < d)
    (h3 : hasDuplicate cs = true) :
    createVotingSession st t cs d now = .error .duplicateCandidate := by
  unfold createVotingSession
  rw [if_pos h1, if_pos h2, if_pos h3]

/-- A pair of equal candidates at distinct positions makes the nested loops
of the contract find a duplicate. -/
theorem hasDuplicate_of_pair (cs : List String) (i j : Nat) (hij : i < j)
    (hj : j < cs.length) (he : cs.getD i "" = cs.getD j "") :
    hasDuplicate cs = true := by
  induction cs generalizing i j with
  | nil => simp at hj
  | cons c rest ih =>
    unfold hasDuplicate
    rw [Bool.or_eq_true]
    cases i with
    | zero =>
      left
      obtain ⟨k, rfl⟩ : ∃ k, j = k + 1 := ⟨j - 1, by omega⟩
      rw [List.getD_cons_zero, List.getD_cons_succ] at he
      have hk : k < rest.length := by simpa using hj
      have hm : c ∈ rest := by
        rw [he, List.getD_eq_getElem _ _ hk]
        exact List.getElem_mem hk
      exact List.elem_iff.mpr hm
    | succ i2 =>
      right
      obtain ⟨k, rfl⟩ : ∃ k, j = k + 1 := ⟨j - 1, by omega⟩
      rw [List.getD_cons_succ, List.getD_cons_succ] at he
      exact ih i2 k (by omega) (by simpa using hj) he

theorem vote_not_active (st : VotingBlock) (sid ci sender now : Nat)
    (h : (sessionAt st sid).isActive = false) :
    vote st sid ci sender now = .error .sessionNotActive := by
  unfold vote
  simp only [h]
  rfl

theorem vote_ended (st : VotingBlock) (sid ci sender now : Nat)
    (ha : (sessionAt st sid).isActive = true)
    (ht : (sessionAt st sid).endTimestamp < now) :
    vote st sid ci sender now = .error .sessionEnded := by
  unfold vote
  simp only [ha, if_true]
  rw [if_neg (by omega)]

theorem vote_already (st : VotingBlock) (sid ci sender now : Nat)
    (ha : (sessionAt st sid).isActive = true)
    (ht : now ≤ (sessionAt st sid).endTimestamp)
    (hv : sender ∈ (sessionAt st sid).hasVoted) :
    vote st sid ci sender now = .error .alreadyVoted := by
  unfold vote
  simp only [ha, if_true]
  rw [if_pos ht, if_pos hv]

/-! ## Analysis of the two `getWinners` loops -/

theorem scanStep_fst (a c v : Nat) : (scanStep (a, c) v).1 = max a v := by
  unfold scanStep
  split_ifs with h1 h2 <;> simp <;> omega

theorem foldl_scanStep_fst (l : List Nat) :
    ∀ a c : Nat, (l.foldl scanStep (a, c)).1 = l.foldl max a := by
  induction l with
  | nil => intro a c; rfl
  | cons v l ih =>
    intro a c
    simp only [List.foldl_cons]
    have he : scanStep (a, c) v = ((scanStep (a, c) v).1, (scanStep (a, c) v).2) :=
      rfl
    rw [he, ih, scanStep_fst]

theorem foldl_max_eq (l : List Nat) : ∀ a : Nat, l.foldl max a = max a (l.foldr max 0) := by
  induction l with
  | nil => intro a; simp
  | cons v l ih =>
    intro a
    simp only [List.foldl_cons, List.foldr_cons]
    rw [ih]
    omega

/-- The first `getWinners` loop computes the maximum of the tally. -/
theorem highestVoteCount_eq_maxTally (tally : List Nat) :
    (tally.foldl scanStep (0, 0)).1 = maxTally tally := by
  rw [foldl_scanStep_fst, foldl_max_eq]
  unfold maxTally
  omega

/-- The number of tally entries equal to a given value. -/
def countEq (l : List Nat) (m : Nat) : Nat := (l.filter (fun v => v = m)).length

theorem countEq_cons (v : Nat) (l : List Nat) (m : Nat) :
    countEq (v :: l) m = (if v = m then 1 else 0) + countEq l m := by
  unfold countEq
  rw [List.filter_cons]
  by_cases h : v = m
  · simp [h]; omega
  · simp [h]

theorem foldl_scanStep_snd (l : List Nat) :
    ∀ a c : Nat, (l.foldl scanStep (a, c)).2 =
      (if l.foldl max a = a then c else 0) + countEq l (l.foldl max a) := by
  induction l with
  | nil => intro a c; simp [countEq]
  | cons v l ih =>
    intro a c
    have hal : ∀ b : Nat, b ≤ l.foldl max b := by
      intro b; rw [foldl_max_eq]; omega
    simp only [List.foldl_cons]
    rcases Nat.lt_trichotomy a v with hav | hav | hav
    · have hs : scanStep (a, c) v = (v, 1) := by
        unfold scanStep; rw [if_pos hav]
      have hm : max a v = v := by omega
      rw [hs, ih, countEq_cons]
      simp only [hm]
      have h1 : l.foldl max v ≠ a := by have := hal v; omega
      rw [if_neg h1]
      split_ifs <;> omega
    · have hs : scanStep (a, c) v = (a, c + 1) := by
        unfold scanStep
        rw [if_neg (by omega), if_pos hav.symm]
      have hm : max a v = a := by omega
      rw [hs, ih, countEq_cons]
      simp only [hm]
      subst hav
      split_ifs <;> omega
    · have hs : scanStep (a, c) v = (a, c) := by
        unfold scanStep
        rw [if_neg (by omega), if_neg (by omega)]
      have hm : max a v = a := by omega
      rw [hs, ih, countEq_cons]
      simp only [hm]
      have h1 : v ≠ l.foldl max a := by have := hal a; omega
      split_ifs <;> omega

/-- The second component of the first loop is the number of tally entries
holding the maximum. -/
theorem winnersCount_eq_countEq (tally : List Nat) :
    (tally.foldl scanStep (0, 0)).2 = countEq tally (maxTally tally) := by
  rw [foldl_scanStep_snd]
  have hz : tally.foldl max 0 = maxTally tally := by
    rw [foldl_max_eq]; unfold maxTally; omega
  rw [hz]
  split_ifs <;> omega

theorem length_filter_range_getD (l : List Nat) (m : Nat) :
    ((List.range l.length).filter (fun i => l.getD i 0 = m)).length =
      countEq l m := by
  induction l with
  | nil => simp [countEq]
  | cons v l ih =>
    rw [List.length_cons, List.range_succ_eq_map, List.filter_cons,
      countEq_cons]
    simp only [List.getD_cons_zero, List.filter_map, Function.comp_def,
      Nat.succ_eq_add_one, List.getD_cons_succ, List.length_map]
    by_cases h : v = m
    · rw [if_pos (by simpa using h), if_pos h]
      simp only [List.length_cons, List.length_map]
      rw [ih]
      omega
    · rw [if_neg (by simpa using h), if_neg h]
      simp only [List.length_map]
      rw [ih]
      omega

/-- The second loop of `getWinners` collects exactly `winnersCount` entries:
the contract never leaves padding slots in the pre-sized `winners` array, so
the collected-list model of the loop is faithful. -/
theorem winners_length_eq_winnersCount (tally : List Nat) :
    ((List.range tally.length).filter
        (fun i => tally.getD i 0 = (tally.foldl scanStep (0, 0)).1)).length =
      (tally.foldl scanStep (0, 0)).2 := by
  rw [winnersCount_eq_countEq]
  conv_lhs => rw [highestVoteCount_eq_maxTally]
  rw [length_filter_range_getD]

/-- On a session with computed results, the contract's two loops return
exactly the spec's winner set. -/
theorem getWinners_eq_specWinners (st : VotingBlock) (sid : Nat)
    (h : (sessionAt st sid).resultsCalculated = true) :
    getWinners st sid =
      .ok (specWinners (sessionAt st sid).candidates
        (sessionAt st sid).finalTally) := by
  unfold getWinners specWinners
  rw [if_pos h]
  rw [highestVoteCount_eq_maxTally]

theorem getWinners_not_calculated (st : VotingBlock) (sid : Nat)
    (h : (sessionAt st sid).resultsCalculated = false) :
    getWinners st sid = .error .resultsNotCalculated := by
  unfold getWinners
  rw [if_neg (by simp [h])]

theorem maxTally_cons (v : Nat) (l : List Nat) :
    maxTally (v :: l) = max v (maxTally l) := rfl

/-- On a nonempty tally the maximum is attained at some index. -/
theorem maxTally_attained (l : List Nat) (h : l ≠ []) :
    ∃ i, i < l.length ∧ l.getD i 0 = maxTally l := by
  induction l with
  | nil => exact absurd rfl h
  | cons v l ih =>
    cases l with
    | nil =>
      refine ⟨0, by simp, ?_⟩
      rw [List.getD_cons_zero, maxTally_cons]
      simp [maxTally]
    | cons w l2 =>
      obtain ⟨i, hi, hvi⟩ := ih (by simp)
      rcases Nat.le_total v (maxTally (w :: l2)) with hc | hc
      · refine ⟨i + 1, by simpa using hi, ?_⟩
        rw [List.getD_cons_succ, maxTally_cons, hvi]
        omega
      · refine ⟨0, by simp, ?_⟩
        rw [List.getD_cons_zero, maxTally_cons]
        omega



/-- All-zero tally: the maximum is zero. -/
theorem maxTally_of_all_zero (l : List Nat) (h : ∀ v ∈ l, v = 0) :
    maxTally l = 0 := by
  induction l with
  | nil => rfl
  | cons v l ih =>
    rw [maxTally_cons, h v (by simp), ih (fun w hw => h w (by simp [hw]))]
    omega

/-- Reading every index of a list back in order reproduces the list. -/
theorem map_getD_range (l : List String) (d : String) :
    (List.range l.length).map (fun i => l.getD i d) = l := by
  induction l with
  | nil => rfl
  | cons a l ih =>
    rw [List.length_cons, List.range_succ_eq_map, List.map_cons, List.map_map]
    simp only [Function.comp_def, Nat.succ_eq_add_one, List.getD_cons_zero,
      List.getD_cons_succ]
    rw [ih]

/-- With an all-zero tally the winner set is the whole candidate list
(provided tally and candidates have the same length, which holds in every
reachable state). -/
theorem specWinners_all_zero (candidates : List String) (tally : List Nat)
    (hlen : tally.length = candidates.length)
    (h : ∀ v ∈ tally, v = 0) : specWinners candidates tally = candidates := by
  unfold specWinners
  rw [maxTally_of_all_zero tally h]
  have hf : (List.range tally.length).filter
      (fun i => tally.getD i 0 = 0) = List.range tally.length := by
    rw [List.filter_eq_self]
    intro i hi
    rw [List.mem_range] at hi
    simp only [decide_eq_true_eq]
    rw [List.getD_eq_getElem _ _ hi]
    exact h _ (List.getElem_mem hi)
  rw [hf, hlen, map_getD_range]

/-- On a nonempty tally the winner set is nonempty. -/
theorem specWinners_ne_nil (candidates : List String) (tally : List Nat)
    (h : tally ≠ []) : specWinners candidates tally ≠ [] := by
  obtain ⟨i, hi, hvi⟩ := maxTally_attained tally h
  unfold specWinners
  intro hc
  rw [List.map_eq_nil_iff] at hc
  have : i ∈ (List.range tally.length).filter
      (fun i => tally.getD i 0 = maxTally tally) := by
    rw [List.mem_filter, List.mem_range]
    refine ⟨hi, ?_⟩
    simp only [decide_eq_true_eq]
    exact hvi
  rw [hc] at this
  exact List.not_mem_nil _ this

/-! ## The reachable-state invariant -/

theorem emptySession_inv : SessionInv emptySession := by
  refine ⟨rfl, rfl, List.nodup_nil, ?_, ?_⟩ <;> simp [emptySession]

theorem initialState_inv : StateInv initialState :=
  ⟨rfl, fun _ => emptySession_inv⟩

theorem stateInv_create (st : VotingBlock) (t : String) (cs : List String)
    (d now sid : Nat) (st' : VotingBlock) (hinv : StateInv st)
    (h : createVotingSession st t cs d now = .ok (sid, st')) : StateInv st' := by
  obtain ⟨hcnt, hsess⟩ := hinv
  obtain ⟨h1, _, _, _, hst'⟩ := createVotingSession_ok st t cs d now sid st' h
  subst hst'
  constructor
  · simp only [length_storeAt]
    omega
  · intro sid2
    by_cases he : sid2 = st.votingSessionCount
    · subst he
      show SessionInv ((storeAt st.votingSessions st.votingSessionCount _).getD
        st.votingSessionCount emptySession)
      rw [storeAt_getD_self]
      refine ⟨by simp [List.length_replicate], ?_, List.nodup_nil, ?_, ?_⟩
      · simp
      · simp
      · intro _
        show 2 ≤ cs.length
        omega
    · show SessionInv ((storeAt st.votingSessions st.votingSessionCount _).getD
        sid2 emptySession)
      rw [storeAt_getD_ne _ _ _ _ he]
      exact hsess sid2

theorem vote_session_in_range (st : VotingBlock) (sid : Nat)
    (ha : (sessionAt st sid).isActive = true) :
    sid < st.votingSessions.length := by
  by_contra hge
  push_neg at hge
  rw [sessionAt_default st sid hge] at ha
  simp [emptySession] at ha

theorem stateInv_vote (st : VotingBlock) (sid ci sender now : Nat)
    (st' : VotingBlock) (hinv : StateInv st)
    (h : vote st sid ci sender now = .ok st') : StateInv st' := by
  obtain ⟨hcnt, hsess⟩ := hinv
  obtain ⟨ha, _, hv, hci, hst'⟩ := vote_ok st sid ci sender now st' h
  obtain ⟨hlen, hsum, hnd, hrc, hcs⟩ := hsess sid
  have hlt : sid < st.votingSessions.length := vote_session_in_range st sid ha
  subst hst'
  constructor
  · simp only [length_storeAt]
    omega
  · intro sid2
    by_cases he : sid2 = sid
    · subst he
      show SessionInv ((storeAt st.votingSessions sid2 _).getD sid2 emptySession)
      rw [storeAt_getD_self]
      refine ⟨by simpa using hlen, ?_, ?_, ?_, ?_⟩
      · show ((sessionAt st sid2).finalTally.set ci _).sum =
          (sender :: (sessionAt st sid2).hasVoted).length
        rw [sum_set_getD_succ _ _ (by omega), hsum, List.length_cons]
      · exact List.nodup_cons.mpr ⟨hv, hnd⟩
      · intro hrc2
        exact absurd ha (by simp [hrc hrc2])
      · intro _
        exact hcs (Or.inl ha)
    · show SessionInv ((storeAt st.votingSessions sid _).getD sid2 emptySession)
      rw [storeAt_getD_ne _ _ _ _ he]
      exact hsess sid2

theorem stateInv_finalize (st : VotingBlock) (sid now : Nat)
    (st' : VotingBlock) (hinv : StateInv st)
    (h : calculateResults st sid now = .ok st') : StateInv st' := by
  obtain ⟨hcnt, hsess⟩ := hinv
  obtain ⟨hlt0, ha, _, _, hst'⟩ := calculateResults_ok st sid now st' h
  obtain ⟨hlen, hsum, hnd, _, hcs⟩ := hsess sid
  have hlt : sid < st.votingSessions.length := by omega
  subst hst'
  constructor
  · simp only [length_storeAt]
    omega
  · intro sid2
    by_cases he : sid2 = sid
    · subst he
      show SessionInv ((storeAt st.votingSessions sid2 _).getD sid2 emptySession)
      rw [storeAt_getD_self]
      exact ⟨hlen, hsum, hnd, fun _ => rfl, fun _ => hcs (Or.inl ha)⟩
    · show SessionInv ((storeAt st.votingSessions sid _).getD sid2 emptySession)
      rw [storeAt_getD_ne _ _ _ _ he]
      exact hsess sid2

theorem stateInv_step (st st' : VotingBlock) (hinv : StateInv st)
    (hs : Step st st') : StateInv st' := by
  cases hs with
  | create t cs d now sid h => exact stateInv_create st t cs d now sid st' hinv h
  | castVote sid ci sender now h => exact stateInv_vote st sid ci sender now st' hinv h
  | finalize sid now h => exact stateInv_finalize st sid now st' hinv h

theorem stateInv_reachableFrom (st st' : VotingBlock) (hinv : StateInv st)
    (hr : ReachableFrom st st') : StateInv st' := by
  induction hr with
  | refl => exact hinv
  | tail s2 s3 h hs ih => exact stateInv_step s2 s3 ih hs

/-- Every reachable contract state satisfies the registry invariant. -/
theorem reachable_stateInv (st : VotingBlock) (hr : Reachable st) :
    StateInv st :=
  stateInv_reachableFrom initialState st initialState_inv hr

/-! ## Monotonicity of the recorded-voter set -/

theorem hasVoted_mono_step (st st' : VotingBlock) (hinv : StateInv st)
    (hs : Step st st') (sid x : Nat)
    (h : x ∈ (sessionAt st sid).hasVoted) :
    x ∈ (sessionAt st' sid).hasVoted := by
  obtain ⟨hcnt, _⟩ := hinv
  cases hs with
  | create t cs d now sid2 hc =>
    obtain ⟨_, _, _, _, hst'⟩ := createVotingSession_ok st t cs d now sid2 st' hc
    subst hst'
    by_cases he : sid = st.votingSessionCount
    · exfalso
      rw [he, sessionAt_default st _ (by omega)] at h
      simp [emptySession] at h
    · show x ∈ ((storeAt st.votingSessions st.votingSessionCount _).getD sid
        emptySession).hasVoted
      rw [storeAt_getD_ne _ _ _ _ he]
      exact h
  | castVote sid2 ci sender now hv =>
    obtain ⟨_, _, _, _, hst'⟩ := vote_ok st sid2 ci sender now st' hv
    subst hst'
    by_cases he : sid = sid2
    · subst he
      show x ∈ ((storeAt st.votingSessions sid _).getD sid emptySession).hasVoted
      rw [storeAt_getD_self]
      exact List.mem_cons_of_mem _ h
    · show x ∈ ((storeAt st.votingSessions sid2 _).getD sid emptySession).hasVoted
      rw [storeAt_getD_ne _ _ _ _ he]
      exact h
  | finalize sid2 now hf =>
    obtain ⟨_, _, _, _, hst'⟩ := calculateResults_ok st sid2 now st' hf
    subst hst'
    by_cases he : sid = sid2
    · subst he
      show x ∈ ((storeAt st.votingSessions sid _).getD sid emptySession).hasVoted
      rw [storeAt_getD_self]
      exact h
    · show x ∈ ((storeAt st.votingSessions sid2 _).getD sid emptySession).hasVoted
      rw [storeAt_getD_ne _ _ _ _ he]
      exact h

theorem hasVoted_mono (st st' : VotingBlock) (hinv : StateInv st)
    (hr : ReachableFrom st st') (sid x : Nat)
    (h : x ∈ (sessionAt st sid).hasVoted) :
    x ∈ (sessionAt st' sid).hasVoted := by
  induction hr with
  | refl => exact h
  | tail s2 s3 hsteps hs ih =>
    exact hasVoted_mono_step s2 s3
      (stateInv_reachableFrom st s2 hinv hsteps) hs sid x ih

/-- A voter already recorded for a session can never vote in it again,
whatever the time or candidate index. -/
theorem vote_fails_of_hasVoted (st : VotingBlock) (sid ci sender now : Nat)
    (h : sender ∈ (sessionAt st sid).hasVoted) :
    isError (vote st sid ci sender now) = true := by
  simp only [vote]
  split_ifs with h1 h2 <;> rfl

theorem execCall_error (st : VotingBlock) (c : Call) (now : Nat)
    (h : isError (callResult st c now) = true) : execCall st c now = st := by
  cases hc : callResult st c now with
  | error e => unfold execCall; rw [hc]
  | ok st2 =>
    rw [hc] at h
    simp [isError] at h

/-! ## Reachability of the §8 scenario states -/

theorem reachable_exCreated : Reachable exCreated :=
  ReachableFrom.tail _ _ _ (ReachableFrom.refl _)
    (Step.create _ _ "Best fruit" ["Banana", "Watermelon"] 60 0 0 rfl)

theorem reachable_exVoted : Reachable exVoted :=
  ReachableFrom.tail _ _ _ reachable_exCreated
    (Step.castVote _ _ 0 1 1 5 rfl)

theorem reachable_exFinal : Reachable exFinal :=
  ReachableFrom.tail _ _ _ reachable_exVoted
    (Step.finalize _ _ 0 61 rfl)

/-! ## The claims -/

/-- C1: for every session whose results have been finalized, `getWinners`
returns exactly the candidates whose tally count equals the maximum value of
the tally, listed in increasing candidate-index order (`specWinners`); in
particular, when every candidate has zero votes it returns all candidates,
and on a tie it returns all tied candidates. -/
theorem getWinners_max_tally (st : VotingBlock) (sid : Nat)
    (hr : Reachable st) (h : (sessionAt st sid).resultsCalculated = true) :
    getWinners st sid =
      .ok (specWinners (sessionAt st sid).candidates
        (sessionAt st sid).finalTally) ∧
    ((∀ v ∈ (sessionAt st sid).finalTally, v = 0) →
      getWinners st sid = .ok (sessionAt st sid).candidates) := by
  obtain ⟨_, hsess⟩ := reachable_stateInv st hr
  obtain ⟨hlen, _, _, _, _⟩ := hsess sid
  refine ⟨getWinners_eq_specWinners st sid h, fun hz => ?_⟩
  rw [getWinners_eq_specWinners st sid h, specWinners_all_zero _ _ hlen hz]

/-- Witness for C1 at the finalized §8 scenario session (tally `[0, 1]`). -/
theorem getWinners_max_tally_witness :
    getWinners exFinal 0 =
      .ok (specWinners (sessionAt exFinal 0).candidates
        (sessionAt exFinal 0).finalTally) ∧
    ((∀ v ∈ (sessionAt exFinal 0).finalTally, v = 0) →
      getWinners exFinal 0 = .ok (sessionAt exFinal 0).candidates) :=
  getWinners_max_tally exFinal 0 reachable_exFinal rfl

/-- C3: in every reachable state and for every session, the tally total
equals the number of identities recorded as having voted (which are recorded
without duplicates), and every tally entry is non-negative. -/
theorem tally_sum_eq_voters (st : VotingBlock) (sid : Nat)
    (hr : Reachable st) :
    (sessionAt st sid).finalTally.sum = (sessionAt st sid).hasVoted.length ∧
    (sessionAt st sid).hasVoted.Nodup ∧
    ∀ v ∈ (sessionAt st sid).finalTally, 0 ≤ v := by
  obtain ⟨_, hsess⟩ := reachable_stateInv st hr
  obtain ⟨_, hsum, hnd, _, _⟩ := hsess sid
  exact ⟨hsum, hnd, fun v _ => Nat.zero_le v⟩

/-- Witness for C3 at the voted-on §8 scenario state (tally `[0, 1]`, one
recorded voter). -/
theorem tally_sum_eq_voters_witness :
    (sessionAt exVoted 0).finalTally.sum =
      (sessionAt exVoted 0).hasVoted.length ∧
    (sessionAt exVoted 0).hasVoted.Nodup ∧
    ∀ v ∈ (sessionAt exVoted 0).finalTally, 0 ≤ v :=
  tally_sum_eq_voters exVoted 0 reachable_exVoted

/-- C4: `create` with fewer than 2 candidates, a zero duration, or two equal
candidate strings fails with the corresponding named error
(`insufficientCandidates`, `invalidDuration`, `duplicateCandidate`, checked
in that order with the first failure winning) and creates no session: the
session count is unchanged by the failed call. -/
theorem create_validation (st : VotingBlock) (t : String) (cs : List String)
    (d now : Nat) :
    (cs.length < 2 →
      createVotingSession st t cs d now = .error .insufficientCandidates) ∧
    (2 ≤ cs.length → d = 0 →
      createVotingSession st t cs d now = .error .invalidDuration) ∧
    (2 ≤ cs.length → 0 < d →
      (∃ i j, i < j ∧ j < cs.length ∧ cs.getD i "" = cs.getD j "") →
      createVotingSession st t cs d now = .error .duplicateCandidate) ∧
    (∀ e, createVotingSession st t cs d now = .error e →
      (execCall st (.create t cs d) now).votingSessionCount =
        st.votingSessionCount) := by
  refine ⟨fun h => createVotingSession_too_few st t cs d now h,
    fun h1 h0 => ?_,
    fun h1 h2 hdup => ?_,
    fun e he => ?_⟩
  · subst h0
    exact createVotingSession_zero_duration st t cs now (by omega)
  · obtain ⟨i, j, hij, hj, he⟩ := hdup
    exact createVotingSession_duplicate st t cs d now (by omega) h2
      (hasDuplicate_of_pair cs i j hij hj he)
  · rw [execCall_error st (.create t cs d) now
      (by simp only [callResult]; rw [he]; rfl)]

/-- Witness for C4: the three rejected creations and the unchanged count. -/
theorem create_validation_witness :
    createVotingSession initialState "t" ["A"] 5 0 =
      .error .insufficientCandidates ∧
    createVotingSession initialState "t" ["A", "B"] 0 0 =
      .error .invalidDuration ∧
    createVotingSession initialState "t" ["A", "B", "A"] 5 0 =
      .error .duplicateCandidate ∧
    (execCall initialState (.create "t" ["A"] 5) 0).votingSessionCount =
      initialState.votingSessionCount :=
  ⟨(create_validation initialState "t" ["A"] 5 0).1 (by decide),
   (create_validation initialState "t" ["A", "B"] 0 0).2.1 (by decide) rfl,
   (create_validation initialState "t" ["A", "B", "A"] 5 0).2.2.1 (by decide)
     (by decide) ⟨0, 2, by decide, by decide, rfl⟩,
   (create_validation initialState "t" ["A"] 5 0).2.2.2 .insufficientCandidates
     ((create_validation initialState "t" ["A"] 5 0).1 (by decide))⟩

/-- C6: a vote against an open (not yet finalized) session strictly after
its `endTimestamp` fails with `sessionEnded`. -/
theorem vote_after_deadline (st : VotingBlock) (sid ci sender now : Nat)
    (ha : (sessionAt st sid).isActive = true)
    (ht : (sessionAt st sid).endTimestamp < now) :
    vote st sid ci sender now = .error .sessionEnded :=
  vote_ended st sid ci sender now ha ht

/-- Witness for C6: the §8 scenario session at time 61 (deadline 60),
still unfinalized, rejects a fresh voter with `sessionEnded`. -/
theorem vote_after_deadline_witness :
    vote exVoted 0 0 7 61 = .error .sessionEnded :=
  vote_after_deadline exVoted 0 0 7 61 rfl (by decide)

/-- C7: a vote against a never-created `sessionId` (at or above the session
count) fails with `sessionNotActive`, the same error a vote against any
closed (for example, finalized) session produces. -/
theorem vote_unknown_session (st : VotingBlock) (sid ci sender now : Nat)
    (st2 : VotingBlock) (sid2 ci2 sender2 now2 : Nat) (hr : Reachable st)
    (hsid : st.votingSessionCount ≤ sid)
    (hcl : (sessionAt st2 sid2).isActive = false) :
    vote st sid ci sender now = .error .sessionNotActive ∧
    vote st2 sid2 ci2 sender2 now2 = .error .sessionNotActive := by
  obtain ⟨hcnt, _⟩ := reachable_stateInv st hr
  have hd : (sessionAt st sid).isActive = false := by
    rw [sessionAt_default st sid (by omega)]
    rfl
  exact ⟨vote_not_active st sid ci sender now hd,
    vote_not_active st2 sid2 ci2 sender2 now2 hcl⟩

/-- Witness for C7: `sessionId = 5` was never created in the one-session
scenario state, and the finalized session 0 gives the same error. -/
theorem vote_unknown_session_witness :
    vote exCreated 5 0 1 0 = .error .sessionNotActive ∧
    vote exFinal 0 0 9 70 = .error .sessionNotActive :=
  vote_unknown_session exCreated 5 0 1 0 exFinal 0 0 9 70
    reachable_exCreated (by decide) rfl

/-- C8: every successful `create` returns the session count as the new id
and increments the count by one; in every reachable state the count equals
the number of sessions ever created (the length of the session store), so
ids are dense, strictly increasing from 0, and never reused. -/
theorem session_ids_dense (st : VotingBlock) (t : String) (cs : List String)
    (d now sid : Nat) (st' : VotingBlock) (hr : Reachable st)
    (h : createVotingSession st t cs d now = .ok (sid, st')) :
    sid = st.votingSessionCount ∧
    st'.votingSessionCount = st.votingSessionCount + 1 ∧
    st.votingSessionCount = st.votingSessions.length ∧
    st'.votingSessionCount = st'.votingSessions.length := by
  obtain ⟨hcnt, _⟩ := reachable_stateInv st hr
  obtain ⟨_, _, _, hsid, hst'⟩ := createVotingSession_ok st t cs d now sid st' h
  have hinv' : StateInv st' :=
    stateInv_create st t cs d now sid st' (reachable_stateInv st hr) h
  exact ⟨hsid, by rw [hst'], hcnt, hinv'.1⟩

/-- Witness for C8: creating the §8 session in the freshly deployed state
yields id 0 and bumps the count from 0 to 1. -/
theorem session_ids_dense_witness :
    (0 : Nat) = initialState.votingSessionCount ∧
    exCreated.votingSessionCount = initialState.votingSessionCount + 1 ∧
    initialState.votingSessionCount = initialState.votingSessions.length ∧
    exCreated.votingSessionCount = exCreated.votingSessions.length :=
  session_ids_dense initialState "Best fruit" ["Banana", "Watermelon"] 60 0 0
    exCreated (ReachableFrom.refl _) rfl

/-- C9: in every reachable state a session with `resultsCalculated` set is
no longer active, so `calculateResults` can never fail with the
`resultsAlreadyCalculated` error: any finalized session is rejected earlier
by the open-session check. -/
theorem finalize_results_flag_safe (st : VotingBlock) (sid now : Nat)
    (hr : Reachable st) :
    ((sessionAt st sid).resultsCalculated = true →
      (sessionAt st sid).isActive = false) ∧
    calculateResults st sid now ≠ .error .resultsAlreadyCalculated := by
  obtain ⟨_, hsess⟩ := reachable_stateInv st hr
  obtain ⟨_, _, _, hrc, _⟩ := hsess sid
  refine ⟨hrc, ?_⟩
  simp only [calculateResults]
  split_ifs with h1 h2 h3 h4
  · exact absurd (hrc h4) (by simp [h2])
  all_goals simp

/-- Witness for C9 at the finalized scenario state. -/
theorem finalize_results_flag_safe_witness :
    ((sessionAt exFinal 0).resultsCalculated = true →
      (sessionAt exFinal 0).isActive = false) ∧
    calculateResults exFinal 0 99 ≠ .error .resultsAlreadyCalculated :=
  finalize_results_flag_safe exFinal 0 99 reachable_exFinal

/-- C2 (amended): once an identity's `vote` on a session has succeeded, no
later `vote` call by that identity on that session ever succeeds, and the
rejected call leaves the whole state (in particular the tally) unchanged;
the error is specifically `alreadyVoted` whenever the session is still
active and the call is within the time window (after `endTime` or after
finalization the rejection uses `sessionEnded` or `sessionNotActive`
instead). -/
theorem vote_at_most_once (st st' st'' : VotingBlock)
    (sid ci sender now ci2 now2 : Nat) (hr : Reachable st)
    (h1 : vote st sid ci sender now = .ok st')
    (h2 : ReachableFrom st' st'') :
    isError (vote st'' sid ci2 sender now2) = true ∧
    ((sessionAt st'' sid).isActive = true →
      now2 ≤ (sessionAt st'' sid).endTimestamp →
      vote st'' sid ci2 sender now2 = .error .alreadyVoted) ∧
    execCall st'' (.castVote sid ci2 sender) now2 = st'' := by
  have hinv := reachable_stateInv st hr
  have hinv' := stateInv_vote st sid ci sender now st' hinv h1
  obtain ⟨_, _, _, _, hst'⟩ := vote_ok st sid ci sender now st' h1
  have hmem' : sender ∈ (sessionAt st' sid).hasVoted := by
    subst hst'
    show sender ∈ ((storeAt st.votingSessions sid _).getD sid
      emptySession).hasVoted
    rw [storeAt_getD_self]
    exact List.mem_cons_self _ _
  have hmem'' : sender ∈ (sessionAt st'' sid).hasVoted :=
    hasVoted_mono st' st'' hinv' h2 sid sender hmem'
  refine ⟨vote_fails_of_hasVoted st'' sid ci2 sender now2 hmem'',
    fun ha2 ht2 => vote_already st'' sid ci2 sender now2 ha2 ht2 hmem'', ?_⟩
  exact execCall_error st'' (.castVote sid ci2 sender) now2
    (vote_fails_of_hasVoted st'' sid ci2 sender now2 hmem'')

/-- Witness for the amended C2: voter 1's repeat attempt at time 30 in the
scenario state is rejected and changes nothing. -/
theorem vote_at_most_once_witness :
    isError (vote exVoted 0 0 1 30) = true ∧
    ((sessionAt exVoted 0).isActive = true →
      30 ≤ (sessionAt exVoted 0).endTimestamp →
      vote exVoted 0 0 1 30 = .error .alreadyVoted) ∧
    execCall exVoted (.castVote 0 0 1) 30 = exVoted :=
  vote_at_most_once exCreated exVoted exVoted 0 1 1 5 0 30
    reachable_exCreated rfl (ReachableFrom.refl _)

/-- C2 counterexample: the claim "any second attempt fails with the
AlreadyVoted error" is false as stated.  Voter 1 votes successfully at time
5; the second attempt at time 61 — past `endTime = 60`, session not yet
finalized — is rejected with `sessionEnded`, not `alreadyVoted`. -/
theorem second_vote_not_alreadyVoted :
    vote exCreated 0 1 1 5 = .ok exVoted ∧
    vote exVoted 0 0 1 61 = .error .sessionEnded ∧
    VBError.sessionEnded ≠ VBError.alreadyVoted :=
  ⟨rfl, rfl, by decide⟩

/-- C5: every mutating call (create, vote, finalize) is all-or-nothing:
a call that fails with an error leaves the registry state exactly as it was,
and a call that succeeds commits all of its listed effects (`FullEffects`:
the touched slot's new contents, every other slot untouched, the counter
bumped exactly by `create`). -/
theorem mutating_calls_atomic (st : VotingBlock) (c : Call) (now : Nat) :
    (∃ e, callResult st c now = .error e ∧ execCall st c now = st) ∨
    (∃ st', callResult st c now = .ok st' ∧ execCall st c now = st' ∧
      FullEffects st c now st') := by
  cases hc : callResult st c now with
  | error e =>
    refine Or.inl ⟨e, rfl, execCall_error st c now (by rw [hc]; rfl)⟩
  | ok st' =>
    refine Or.inr ⟨st', rfl, by unfold execCall; rw [hc], ?_⟩
    cases c with
    | create t cs d =>
      simp only [callResult] at hc
      cases hcr : createVotingSession st t cs d now with
      | error e =>
        rw [hcr] at hc
        simp [Except.map] at hc
      | ok p =>
        obtain ⟨sid, st2⟩ := p
        rw [hcr] at hc
        simp only [Except.map, Except.ok.injEq] at hc
        subst hc
        obtain ⟨_, _, _, _, hst2⟩ :=
          createVotingSession_ok st t cs d now sid st2 hcr
        subst hst2
        unfold FullEffects
        refine ⟨rfl, ?_, ?_⟩
        · show (storeAt st.votingSessions st.votingSessionCount _).getD
            st.votingSessionCount emptySession = _
          rw [storeAt_getD_self]
        · intro j hj
          show (storeAt st.votingSessions st.votingSessionCount _).getD j
            emptySession = _
          rw [storeAt_getD_ne _ _ _ _ hj]
          rfl
    | castVote sid ci sender =>
      simp only [callResult] at hc
      obtain ⟨_, _, _, _, hst'⟩ := vote_ok st sid ci sender now st' hc
      subst hst'
      unfold FullEffects
      refine ⟨rfl, ?_, ?_⟩
      · show (storeAt st.votingSessions sid _).getD sid emptySession = _
        rw [storeAt_getD_self]
      · intro j hj
        show (storeAt st.votingSessions sid _).getD j emptySession = _
        rw [storeAt_getD_ne _ _ _ _ hj]
        rfl
    | finalize sid =>
      simp only [callResult] at hc
      obtain ⟨_, _, _, _, hst'⟩ := calculateResults_ok st sid now st' hc
      subst hst'
      unfold FullEffects
      refine ⟨rfl, ?_, ?_⟩
      · show (storeAt st.votingSessions sid _).getD sid emptySession = _
        rw [storeAt_getD_self]
      · intro j hj
        show (storeAt st.votingSessions sid _).getD j emptySession = _
        rw [storeAt_getD_ne _ _ _ _ hj]
        rfl

/-- C10: for every finalized session in a reachable state, `getWinners`
succeeds and returns a non-empty list: such a session was created with at
least two candidates, its tally has the same length, and the maximum is
attained at some index. -/
theorem getWinners_nonempty (st : VotingBlock) (sid : Nat)
    (hr : Reachable st) (h : (sessionAt st sid).resultsCalculated = true) :
    getWinners st sid =
      .ok (specWinners (sessionAt st sid).candidates
        (sessionAt st sid).finalTally) ∧
    specWinners (sessionAt st sid).candidates
      (sessionAt st sid).finalTally ≠ [] := by
  obtain ⟨_, hsess⟩ := reachable_stateInv st hr
  obtain ⟨hlen, _, _, _, hcs⟩ := hsess sid
  have h2 : 2 ≤ (sessionAt st sid).candidates.length := hcs (Or.inr h)
  have htne : (sessionAt st sid).finalTally ≠ [] := by
    intro hcon
    rw [hcon] at hlen
    simp only [List.length_nil] at hlen
    omega
  exact ⟨getWinners_eq_specWinners st sid h, specWinners_ne_nil _ _ htne⟩

/-- Witness for C10 at the finalized scenario state. -/
theorem getWinners_nonempty_witness :
    getWinners exFinal 0 =
      .ok (specWinners (sessionAt exFinal 0).candidates
        (sessionAt exFinal 0).finalTally) ∧
    specWinners (sessionAt exFinal 0).candidates
      (sessionAt exFinal 0).finalTally ≠ [] :=
  getWinners_nonempty exFinal 0 reachable_exFinal rfl
